import Mathlib

/-!
Verification development for the flowsheet canvas engine
(`UI_Interface/flow_canvas.py`, with the earlier revision `canvas.py`).

The Python code is shallowly embedded: Qt screen coordinates are `ℤ`
(pixel positions), logical coordinates and thresholds are `ℚ`, Python's
floor division `//` is `Int.fdiv`, and Python's `int()` (truncation
toward zero) is `pyTrunc`.  Qt rectangle conventions are kept:
`QRect.right() = x + width - 1` and `QRect.bottom() = y + height - 1`.
Distance comparisons `math.hypot(...) <= threshold` are embedded as the
equivalent `0 ≤ threshold ∧ squaredDistance ≤ threshold²`, avoiding
square roots.
-/

/-- A Qt `QRect`: integer position and size, Qt edge conventions. -/
structure Rect where
  x : ℤ
  y : ℤ
  w : ℤ
  h : ℤ
deriving DecidableEq, Repr

/-- `QRect.right()` is `x + width - 1` in Qt. -/
def Rect.right (r : Rect) : ℤ := r.x + r.w - 1

/-- `QRect.bottom()` is `y + height - 1` in Qt. -/
def Rect.bottom (r : Rect) : ℤ := r.y + r.h - 1

/-- `QRect.contains(p)`: `x() ≤ p.x ≤ right()` and `y() ≤ p.y ≤ bottom()`. -/
def rectContains (r : Rect) (p : ℤ × ℤ) : Bool :=
  decide (r.x ≤ p.1 ∧ p.1 ≤ r.right ∧ r.y ≤ p.2 ∧ p.2 ≤ r.bottom)

/-- `QRect.setTopLeft(p)`: moves the top-left corner, keeping `right()`
and `bottom()` fixed. -/
def Rect.setTopLeft (r : Rect) (p : ℤ × ℤ) : Rect :=
  ⟨p.1, p.2, r.right - p.1 + 1, r.bottom - p.2 + 1⟩

/-- `QRect.setTopRight(p)`: keeps `left()` and `bottom()` fixed. -/
def Rect.setTopRight (r : Rect) (p : ℤ × ℤ) : Rect :=
  ⟨r.x, p.2, p.1 - r.x + 1, r.bottom - p.2 + 1⟩

/-- `QRect.setBottomLeft(p)`: keeps `right()` and `top()` fixed. -/
def Rect.setBottomLeft (r : Rect) (p : ℤ × ℤ) : Rect :=
  ⟨p.1, r.y, r.right - p.1 + 1, p.2 - r.y + 1⟩

/-- `QRect.setBottomRight(p)`: keeps `left()` and `top()` fixed. -/
def Rect.setBottomRight (r : Rect) (p : ℤ × ℤ) : Rect :=
  ⟨r.x, r.y, p.1 - r.x + 1, p.2 - r.y + 1⟩

/-! ## Resize gesture (`Canvas.resize_image`, flow_canvas.py:496-522,
identical logic in canvas.py:172-190)

The handler receives the pointer position and takes the widget's current
geometry; `eff = pos - resizing_offset` is the effective corner target.
The rectangle is updated by a Qt corner setter with no clamping of any
kind.  Note: `geometry()` returns a copy, and only the `bottom_right`
branch calls `setGeometry`, so only bottom-right drags actually change
the widget's rectangle. -/

/-- The four resize corners recognised by `get_resize_corner`. -/
inductive Corner where
  | top_left
  | top_right
  | bottom_left
  | bottom_right
deriving DecidableEq, Repr

/-- The rectangle `new_rect` computed inside `resize_image` for the given
corner and effective pointer target. -/
def resize_new_rect (rect : Rect) (corner : Corner) (eff : ℤ × ℤ) : Rect :=
  match corner with
  | .top_left => rect.setTopLeft eff
  | .top_right => rect.setTopRight eff
  | .bottom_left => rect.setBottomLeft eff
  | .bottom_right => rect.setBottomRight eff

/-- The widget geometry after `resize_image`: `setGeometry(new_rect)` is
reached only in the `bottom_right` branch (flow_canvas.py:518-522); the
other branches mutate the local copy and discard it. -/
def resize_image (rect : Rect) (corner : Corner) (eff : ℤ × ℤ) : Rect :=
  match corner with
  | .bottom_right => rect.setBottomRight eff
  | _ => rect

/-! ## Finalising a gesture (`Canvas.mouseReleaseEvent`, flow_canvas.py:437-471)

The per-unit entry of `self.images` relevant to release:  the handler
recomputes the logical position from the widget position, and when a
resize was active it stores `original_size` — the baseline recorded at
drop time — into `size`.  (The earlier revision canvas.py:140-154 stored
the resized pixmap size instead.) -/

/-- The per-unit metadata touched by `mouseReleaseEvent`. -/
structure UnitProps where
  size : ℤ × ℤ
  original_size : ℤ × ℤ
  position : ℚ × ℚ
  resizing : Bool
deriving DecidableEq

/-- `Canvas.mouseReleaseEvent` on the active unit's metadata
(flow_canvas.py:455-471): recompute the logical position from the widget
position, and if a resize gesture was active, clear the flag and set
`size := original_size`. -/
def mouseReleaseEvent (props : UnitProps) (widget_pos : ℤ × ℤ)
    (grid_offset : ℤ × ℤ) (scale : ℚ) : UnitProps :=
  let logical : ℚ × ℚ :=
    (((widget_pos.1 - grid_offset.1 : ℤ) : ℚ) / scale,
     ((widget_pos.2 - grid_offset.2 : ℤ) : ℚ) / scale)
  if props.resizing then
    { props with resizing := false, size := props.original_size, position := logical }
  else
    { props with position := logical }

/-! ## Coordinate transform

Positioning units (`mouseMoveEvent`, flow_canvas.py:432-433, and
`updateImageScaling`, flow_canvas.py:679-680) computes
`int(logical * scaleFactor) + grid_offset`; interpreting pointer
positions (flow_canvas.py:379, 427, 459-460) computes
`(screen - grid_offset) / scaleFactor`.  Python's `int()` truncates
toward zero. -/

/-- Python `int()` on a rational: truncation toward zero. -/
def pyTrunc (q : ℚ) : ℤ := if q < 0 then -⌊-q⌋ else ⌊q⌋

/-- Screen position of a logical point, as computed when positioning units:
`(int(p.x * scale) + pan.x, int(p.y * scale) + pan.y)`. -/
def toScreen (scale : ℚ) (pan : ℤ × ℤ) (p : ℚ × ℚ) : ℤ × ℤ :=
  (pyTrunc (p.1 * scale) + pan.1, pyTrunc (p.2 * scale) + pan.2)

/-- Logical position of a screen point, as computed when interpreting
pointer positions: `((s.x - pan.x) / scale, (s.y - pan.y) / scale)`. -/
def toLogical (scale : ℚ) (pan : ℤ × ℤ) (s : ℤ × ℤ) : ℚ × ℚ :=
  (((s.1 : ℚ) - pan.1) / scale, ((s.2 : ℚ) - pan.2) / scale)

/-! ## Connection routing (`connection_path_points`, flow_canvas.py:1164-1208)

`start_pos = (start_rect.right(), start_rect.top() + start_rect.height() // 2)`
`end_pos   = (end_rect.left(),    end_rect.top() + end_rect.height() // 2)` -/

/-- Right-center attachment point of the start unit's screen rectangle. -/
def startPos (sr : Rect) : ℤ × ℤ := (sr.right, sr.y + sr.h.fdiv 2)

/-- Left-center attachment point of the end unit's screen rectangle. -/
def endPos (er : Rect) : ℤ × ℤ := (er.x, er.y + er.h.fdiv 2)

/-- The branch condition `start_pos[0] < end_pos[0] - offset` with `offset = 24`:
`true` selects the forward branch, `false` the loopback branch. -/
def forwardCond (sr er : Rect) : Bool :=
  decide ((startPos sr).1 < (endPos er).1 - 24)

/-- `Canvas.connection_path_points` (flow_canvas.py:1164-1208): the control
points of the routed polyline, `offset = 24`, `gap = 60`.  The same point
sequence is traced by `connection_path` and by the committed-connection
branch of `paintEvent`. -/
def connection_path_points (sr er : Rect) : List (ℤ × ℤ) :=
  let sp := startPos sr
  let ep := endPos er
  if forwardCond sr er then
    let p1 := (sp.1 + 24, sp.2)
    let p2 := (ep.1 - 24, ep.2)
    if |sp.2 - ep.2| < 2 * 24 then
      [sp, p1, (p1.1, ep.2), p2, ep]
    else
      let mid_y := (sp.2 + ep.2).fdiv 2
      [sp, p1, (p1.1, mid_y), (p2.1, mid_y), p2, ep]
  else
    let top := min sr.y er.y
    let p1 := (sp.1 + 24, sp.2)
    let p2 := (p1.1, top - 60)
    let p3 := (er.x - 60, p2.2)
    let p4 := (p3.1, ep.2)
    let p5 := (ep.1 - 24, ep.2)
    [sp, p1, p2, p3, p4, p5, ep]

/-! ## Segment geometry over ℚ -/

/-- Cast an integer pixel point into the rational plane. -/
def toQp (p : ℤ × ℤ) : ℚ × ℚ := ((p.1 : ℚ), (p.2 : ℚ))

/-- The point of the segment `a`–`b` at parameter `t`. -/
def lerp (a b : ℚ × ℚ) (t : ℚ) : ℚ × ℚ :=
  (a.1 + t * (b.1 - a.1), a.2 + t * (b.2 - a.2))

/-- Squared Euclidean distance. -/
def distSq (p q : ℚ × ℚ) : ℚ := (p.1 - q.1) ^ 2 + (p.2 - q.2) ^ 2

/-- `p` lies on the closed segment from `a` to `b`. -/
def onSeg (a b p : ℚ × ℚ) : Prop := ∃ t : ℚ, 0 ≤ t ∧ t ≤ 1 ∧ p = lerp a b t

/-- `p` lies on the polyline through the given integer control points. -/
def onPolyline : List (ℤ × ℤ) → ℚ × ℚ → Prop
  | a :: b :: rest, p => onSeg (toQp a) (toQp b) p ∨ onPolyline (b :: rest) p
  | _, _ => False

/-- The open interior ("body") of a unit's screen rectangle, between its
Qt edges `left()/right()` and `top()/bottom()`. -/
def rectInterior (r : Rect) (p : ℚ × ℚ) : Prop :=
  (r.x : ℚ) < p.1 ∧ p.1 < (r.right : ℚ) ∧ (r.y : ℚ) < p.2 ∧ p.2 < (r.bottom : ℚ)

/-! ## Connection hit-testing (`point_near_line`, flow_canvas.py:1210-1232,
and the segment fallback of `connection_at`, flow_canvas.py:1073-1094) -/

/-- The clamped projection parameter of `point_near_line`
(flow_canvas.py:1229): `t = max(0, min(1, ((x0-x1)*dx + (y0-y1)*dy) / (dx*dx + dy*dy)))`. -/
def projParam (pt p1 p2 : ℚ × ℚ) : ℚ :=
  let dx := p2.1 - p1.1
  let dy := p2.2 - p1.2
  max 0 (min 1 (((pt.1 - p1.1) * dx + (pt.2 - p1.2) * dy) / (dx * dx + dy * dy)))

/-- `Canvas.point_near_line`: if the segment is degenerate
(`dx == dy == 0`) compare the direct distance to the endpoint, otherwise
project onto the segment, clamp the parameter to `[0, 1]` (`projParam`),
and compare the distance to the projection point
`(x1 + t*dx, y1 + t*dy) = lerp p1 p2 t`.  The source compares
`math.hypot(...) <= threshold`; as a hypotenuse is nonnegative that
comparison equals `0 ≤ threshold ∧ squaredDistance ≤ threshold²`. -/
def point_near_line (pt p1 p2 : ℚ × ℚ) (threshold : ℚ) : Bool :=
  if p2.1 - p1.1 = 0 ∧ p2.2 - p1.2 = 0 then
    decide (0 ≤ threshold ∧ distSq pt p1 ≤ threshold ^ 2)
  else
    decide (0 ≤ threshold ∧ distSq pt (lerp p1 p2 (projParam pt p1 p2)) ≤ threshold ^ 2)

/-- The consecutive pairs of a control-point list: the segments the
fallback loop `for i in range(len(points)-1)` visits. -/
def adjPairs : List (ℤ × ℤ) → List ((ℤ × ℤ) × (ℤ × ℤ))
  | [] => []
  | [_] => []
  | a :: b :: rest => (a, b) :: adjPairs (b :: rest)

/-- Whether some segment of the polyline is within `threshold` of `pt`
(the inner loop of `connection_at`'s fallback). -/
def near_polyline (pt : ℚ × ℚ) (threshold : ℚ) : List (ℤ × ℤ) → Bool
  | a :: b :: rest =>
      point_near_line pt (toQp a) (toQp b) threshold || near_polyline pt threshold (b :: rest)
  | _ => false

/-- The segment-distance fallback of `Canvas.connection_at`
(flow_canvas.py:1089-1093): each connection is identified by the pair of
endpoint screen rectangles its path is routed between, and the first
connection with a segment within `threshold` of the query point is
returned.  (The `QPainterPath.contains` test that precedes this fallback
in the source concerns the filled region of the same path and is outside
this model.) -/
def connection_at_segments (pt : ℚ × ℚ) (threshold : ℚ)
    (conns : List (Rect × Rect)) : Option (Rect × Rect) :=
  conns.find? (fun rr => near_polyline pt threshold (connection_path_points rr.1 rr.2))

/-! ## Connection state machine (flow_canvas.py:284-390, 543-560, 904-920,
1234-1274)

Only the state that the connection subsystem reads or writes is modeled:
the registered units (insertion order, as iterated by
`for container in self.images`), the pending connection source, and the
connection list.  In the source, `self.connecting` and
`self.connection_start` move in lockstep (both set by `connect_line`,
both cleared on commit and on cancel), so the Connecting mode is modeled
by `connection_start.isSome`.  The source stores the start widget
reference and looks its properties up in `self.images`; here the unit
record carries its properties.  Widget identity (`container !=
self.connection_start`, dict keys) is modeled by the unit id. -/

/-- Connection kind: solid data line or dashed action line. -/
inductive ConnType where
  | data
  | action
deriving DecidableEq, Repr

/-- One entry of `self.connections` (flow_canvas.py:337-344).
`endU` is the `'end'` field (`end` is a Lean keyword). -/
structure Conn where
  start : ℕ
  endU : ℕ
  ctype : ConnType
  label : String
  port : ℕ
  total_ports : ℕ
deriving DecidableEq, Repr

/-- A registered unit: identity, screen geometry, display label
(the text of its `text_label`). -/
structure ImgU where
  id : ℕ
  rect : Rect
  label : String
deriving DecidableEq, Repr

/-- Whether `needle` is a prefix of `hay` (on characters). -/
def startsWithSub : List Char → List Char → Bool
  | [], _ => true
  | _ :: _, [] => false
  | a :: as, b :: bs => a == b && startsWithSub as bs

/-- Python's substring test `needle in hay` (on characters). -/
def containsSub (needle : List Char) : List Char → Bool
  | [] => needle.isEmpty
  | c :: rest => startsWithSub needle (c :: rest) || containsSub needle rest

/-- The decision-unit test `"if" in text.lower()` (flow_canvas.py:325). -/
def hasIfLabel (s : String) : Bool :=
  containsSub ['i', 'f'] (s.toList.map Char.toLower)

/-- The connection-relevant canvas state. -/
structure FlowState where
  images : List ImgU
  connection_start : Option ImgU
  connections : List Conn
deriving DecidableEq

/-- The initial state set up by `Canvas.__init__` (flow_canvas.py:45-54):
no units, not connecting, empty connection list. -/
def initState : FlowState := ⟨[], none, []⟩

/-- The connection record built when a connect gesture commits
(flow_canvas.py:314-344): default is a solid unlabeled data edge with
port 0 of 1; if the source unit's label contains "if" (case-insensitive)
the edge is a dashed action edge whose port is the number of connections
already starting at that source, with `total_ports = 3` and the label
cycling through "if(u1 > 0)", "elseif(u2 > 0)", "else". -/
def mkConn (stIm target : ImgU) (conns : List Conn) : Conn :=
  if hasIfLabel stIm.label then
    let port := (conns.filter (fun c => c.start == stIm.id)).length
    { start := stIm.id, endU := target.id, ctype := .action,
      label := if port == 0 then "if(u1 > 0)"
               else if port == 1 then "elseif(u2 > 0)"
               else "else",
      port := port, total_ports := 3 }
  else
    { start := stIm.id, endU := target.id, ctype := .data,
      label := "", port := 0, total_ports := 1 }

/-- `Canvas.mousePressEvent` restricted to the Connecting mode
(flow_canvas.py:311-358): the first registered unit containing the press
position and distinct from the source receives the connection; otherwise
the gesture is cancelled.  Either way the mode ends.  Outside Connecting
mode a press selects/moves/resizes and never touches the connection
list. -/
def mousePressEvent (s : FlowState) (pos : ℤ × ℤ) : FlowState :=
  match s.connection_start with
  | some stIm =>
      match s.images.find? (fun im => rectContains im.rect pos && im.id != stIm.id) with
      | some target =>
          { s with connections := s.connections ++ [mkConn stIm target s.connections],
                   connection_start := none }
      | none => { s with connection_start := none }
  | none => s

/-- `Canvas.connect_line` (flow_canvas.py:543-560): if the unit is
registered, enter Connecting mode with it as the source. -/
def connect_line (s : FlowState) (u : ℕ) : FlowState :=
  match s.images.find? (fun im => im.id == u) with
  | some im => { s with connection_start := some im }
  | none => s

/-- `Canvas.delete_image` (flow_canvas.py:904-920): remove the unit from
the registry (and clear the active selection, not modeled here).  The
connection list is NOT touched by the source. -/
def delete_image (s : FlowState) (u : ℕ) : FlowState :=
  { s with images := s.images.eraseP (fun im => im.id == u) }

/-- Removal of one connection via the connection context menu
(`showConnectionContextMenu`, flow_canvas.py:1270-1274):
`self.connections.remove(...)` drops the first equal entry. -/
def remove_connection (s : FlowState) (c : Conn) : FlowState :=
  { s with connections := s.connections.erase c }

/-- `Canvas.dropEvent` (flow_canvas.py:128-209): register a new unit. -/
def dropEvent (s : FlowState) (im : ImgU) : FlowState :=
  { s with images := s.images ++ [im] }

/-- The input events that reach the connection subsystem. -/
inductive Ev where
  | drop (im : ImgU)
  | connectLineEv (u : ℕ)
  | press (pos : ℤ × ℤ)
  | deleteImageEv (u : ℕ)
  | removeConnEv (c : Conn)

/-- One step of the canvas, dispatching an event to its handler. -/
def step (s : FlowState) (e : Ev) : FlowState :=
  match e with
  | .drop im => dropEvent s im
  | .connectLineEv u => connect_line s u
  | .press pos => mousePressEvent s pos
  | .deleteImageEv u => delete_image s u
  | .removeConnEv c => remove_connection s c

/-- The state reached from the initial state by a sequence of events. -/
def run (evs : List Ev) : FlowState := evs.foldl step initState

/-- No connection is a self-loop. -/
def NoSelfLoop (s : FlowState) : Prop := ∀ c ∈ s.connections, c.start ≠ c.endU

/-- The number of connections referencing unit `u` as start or end. -/
def countReferencing (s : FlowState) (u : ℕ) : ℕ :=
  (s.connections.filter (fun c => c.start == u || c.endU == u)).length

/-! # Theorems -/

/-- Truncation toward zero moves a rational by strictly less than 1. -/
theorem abs_sub_pyTrunc_lt_one (q : ℚ) : |q - pyTrunc q| < 1 := by
  unfold pyTrunc
  split
  · rename_i h
    push_cast
    rw [abs_lt]
    constructor
    · have := Int.lt_floor_add_one (-q)
      linarith
    · have := Int.floor_le (-q)
      linarith
  · rw [abs_lt]
    constructor
    · have := Int.floor_le q
      linarith
    · have := Int.lt_floor_add_one q
      linarith

/-- C4, counterexample: the round trip is not the identity (and the
deviation, 1/2 of a logical unit at scale 1, is far beyond floating
tolerance): `int()` truncation when positioning loses the fractional
part of `p * scale`. -/
theorem c4_roundtrip_counterexample :
    toLogical 1 (0, 0) (toScreen 1 (0, 0) (1/2, 1/2)) = (0, 0) ∧
    ((1 : ℚ)/2, (1 : ℚ)/2) ≠ ((0 : ℚ), (0 : ℚ)) ∧
    (1 : ℚ)/2 - (toLogical 1 (0, 0) (toScreen 1 (0, 0) (1/2, 1/2))).1 = 1/2 := by
  refine ⟨by norm_num [toScreen, toLogical, pyTrunc], by norm_num,
    by norm_num [toScreen, toLogical, pyTrunc]⟩

/-- C4, amended: for every logical point `p`, every `scale > 0` and every
`panOffset`, the round trip `toLogical (toScreen p)` returns to within
strictly less than `1/scale` (one screen pixel) of `p` in each
coordinate; it is not exact because the screen position truncates
`p * scale` to an integer pixel. -/
theorem c4_roundtrip_within_one_pixel (scale : ℚ) (pan : ℤ × ℤ) (p : ℚ × ℚ)
    (hs : 0 < scale) :
    |p.1 - (toLogical scale pan (toScreen scale pan p)).1| < 1 / scale ∧
    |p.2 - (toLogical scale pan (toScreen scale pan p)).2| < 1 / scale := by
  have key : ∀ (x : ℚ) (o : ℤ),
      |x - ((pyTrunc (x * scale) + o : ℤ) - (o : ℚ)) / scale| < 1 / scale := by
    intro x o
    have hnum : ((pyTrunc (x * scale) + o : ℤ) - (o : ℚ)) = (pyTrunc (x * scale) : ℚ) := by
      push_cast
      ring
    rw [hnum]
    have h1 : x - (pyTrunc (x * scale) : ℚ) / scale
        = (x * scale - pyTrunc (x * scale)) / scale := by
      field_simp
    rw [h1, abs_div, abs_of_pos hs, div_lt_div_iff_of_pos_right hs]
    exact abs_sub_pyTrunc_lt_one (x * scale)
  exact ⟨key p.1 pan.1, key p.2 pan.2⟩

/-- Witness for `c4_roundtrip_within_one_pixel` at scale 2, pan (3,4),
p = (5/4, −7/3). -/
theorem c4_roundtrip_within_one_pixel_witness :
    |(5/4 : ℚ) - (toLogical 2 (3, 4) (toScreen 2 (3, 4) (5/4, -7/3))).1| < 1 / 2 ∧
    |(-7/3 : ℚ) - (toLogical 2 (3, 4) (toScreen 2 (3, 4) (5/4, -7/3))).2| < 1 / 2 :=
  c4_roundtrip_within_one_pixel 2 (3, 4) (5/4, -7/3) (by norm_num)

/-- C5: routing branch selection on the concrete scenario of the spec.
With A at (0,0) size 100×50 and B at (300,0) size 100×50 (scale 1, zero
pan, so screen rect = logical rect) the connection A→B takes the forward
branch, its leading horizontal segment leaves A's right edge by exactly
24 and its trailing horizontal segment approaches B's left edge by
exactly 24; after moving B to (−50,0) the same computation takes the
loopback branch and its polyline contains a vertical excursion reaching
exactly `gap = 60` above the topmost rectangle edge. -/
theorem c5_routing_branch_selection :
    let A : Rect := ⟨0, 0, 100, 50⟩
    let B : Rect := ⟨300, 0, 100, 50⟩
    let B' : Rect := ⟨-50, 0, 100, 50⟩
    forwardCond A B = true ∧
    connection_path_points A B =
      [(99, 25), (123, 25), (123, 25), (276, 25), (300, 25)] ∧
    (123 : ℤ) - A.right = 24 ∧ (B.x : ℤ) - 276 = 24 ∧
    forwardCond A B' = false ∧
    connection_path_points A B' =
      [(99, 25), (123, 25), (123, -60), (-110, -60), (-110, 25), (-74, 25), (-50, 25)] ∧
    ((123 : ℤ), (-60 : ℤ)) ∈ connection_path_points A B' ∧
    min A.y B'.y - (-60 : ℤ) = 60 := by
  refine ⟨by decide, by decide, by decide, by decide, by decide, by decide, by decide, by decide⟩

/-- C1, failing input: a canvas with units 0 and 1 and one connection
0→1.  `delete_image` removes unit 0 from the registry but does not touch
the connection list, so one connection referencing the deleted unit
remains (the claim requires exactly 0). -/
theorem c1_delete_image_leaves_dangling_connection :
    delete_image ⟨[⟨0, ⟨0, 0, 100, 50⟩, "A"⟩, ⟨1, ⟨300, 0, 100, 50⟩, "B"⟩], none,
        [⟨0, 1, .data, "", 0, 1⟩]⟩ 0 =
      ⟨[⟨1, ⟨300, 0, 100, 50⟩, "B"⟩], none, [⟨0, 1, .data, "", 0, 1⟩]⟩ ∧
    countReferencing (delete_image ⟨[⟨0, ⟨0, 0, 100, 50⟩, "A"⟩,
        ⟨1, ⟨300, 0, 100, 50⟩, "B"⟩], none, [⟨0, 1, .data, "", 0, 1⟩]⟩ 0) 0 = 1 := by
  refine ⟨by decide, by decide⟩

/-- C2, failing input: a bottom-right resize whose effective pointer
target lies above and to the left of the unit's top-left corner.  The
source applies the corner move with no clamping, so the stored geometry
collapses to a negative 9×9 size instead of the required minimum 1×1. -/
theorem c2_resize_image_no_clamping :
    (resize_image ⟨0, 0, 100, 50⟩ .bottom_right (-10, -10)).w = -9 ∧
    (resize_image ⟨0, 0, 100, 50⟩ .bottom_right (-10, -10)).h = -9 ∧
    ¬ (0 < (resize_image ⟨0, 0, 100, 50⟩ .bottom_right (-10, -10)).w ∧
       0 < (resize_image ⟨0, 0, 100, 50⟩ .bottom_right (-10, -10)).h) := by
  refine ⟨by decide, by decide, by decide⟩

/-- C3, failing input: a resize gesture on a 100×50 unit drags the
bottom-right corner so the widget geometry becomes 150×80; on release
with `resizing` true, `mouseReleaseEvent` stores `original_size`
(100×50, the pre-resize baseline) into `size`, not the 150×80 the
gesture produced. -/
theorem c3_release_stores_baseline_not_result :
    ((resize_image ⟨0, 0, 100, 50⟩ .bottom_right (149, 79)).w,
     (resize_image ⟨0, 0, 100, 50⟩ .bottom_right (149, 79)).h) = (150, 80) ∧
    (mouseReleaseEvent ⟨(100, 50), (100, 50), (0, 0), true⟩ (0, 0) (0, 0) 1).size
      = (100, 50) ∧
    ((100 : ℤ), (50 : ℤ)) ≠ ((150 : ℤ), (80 : ℤ)) := by
  refine ⟨by decide, by decide, by decide⟩

/-- C6, counterexample: units with screen rectangles (0,0,100,50) and
(100,0,100,50) satisfy the loopback condition, yet the point (110, 25)
lies on the loopback polyline (on its leading horizontal segment) and in
the interior of the end unit's rectangle: the loopback path can cross a
unit body when the rectangles overlap the routing corridor. -/
theorem c6_loopback_crossing_counterexample :
    forwardCond ⟨0, 0, 100, 50⟩ ⟨100, 0, 100, 50⟩ = false ∧
    onPolyline (connection_path_points ⟨0, 0, 100, 50⟩ ⟨100, 0, 100, 50⟩)
      ((110 : ℚ), (25 : ℚ)) ∧
    rectInterior ⟨100, 0, 100, 50⟩ ((110 : ℚ), (25 : ℚ)) := by
  refine ⟨by decide, ?_, ?_⟩
  · have hp : connection_path_points ⟨0, 0, 100, 50⟩ ⟨100, 0, 100, 50⟩ =
        [(99, 25), (123, 25), (123, -60), (40, -60), (40, 25), (76, 25), (100, 25)] := by
      decide
    rw [hp]
    exact Or.inl ⟨11/24, by norm_num, by norm_num, by norm_num [lerp, toQp, Prod.ext_iff]⟩
  · norm_num [rectInterior, Rect.right, Rect.bottom]

/-- A point of a segment has its x-coordinate between the endpoints'. -/
theorem onSeg_bounds_x {a b p : ℚ × ℚ} (h : onSeg a b p) (hab : a.1 ≤ b.1) :
    a.1 ≤ p.1 ∧ p.1 ≤ b.1 := by
  obtain ⟨t, ht0, ht1, hp⟩ := h
  subst hp
  simp only [lerp]
  constructor <;> nlinarith

/-- A point of a segment has its y-coordinate between the endpoints'. -/
theorem onSeg_bounds_y {a b p : ℚ × ℚ} (h : onSeg a b p) (hab : a.2 ≤ b.2) :
    a.2 ≤ p.2 ∧ p.2 ≤ b.2 := by
  obtain ⟨t, ht0, ht1, hp⟩ := h
  subst hp
  simp only [lerp]
  constructor <;> nlinarith

/-- On a vertical segment the x-coordinate is constant. -/
theorem onSeg_const_x {a b p : ℚ × ℚ} (h : onSeg a b p) (hab : a.1 = b.1) :
    p.1 = a.1 := by
  obtain ⟨t, _, _, hp⟩ := h
  subst hp
  simp [lerp, ← hab]

/-- On a horizontal segment the y-coordinate is constant. -/
theorem onSeg_const_y {a b p : ℚ × ℚ} (h : onSeg a b p) (hab : a.2 = b.2) :
    p.2 = a.2 := by
  obtain ⟨t, _, _, hp⟩ := h
  subst hp
  simp [lerp, ← hab]

/-- C6, amended: the loopback guarantee holds when the end unit's
rectangle lies entirely strictly to the left of the start unit's
rectangle (`er.x + er.w ≤ sr.x`, no horizontal overlap) and both have
positive width: then no point of the loopback polyline lies in the open
interior of either screen rectangle.  (The unrestricted claim is refuted
by `c6_loopback_crossing_counterexample`, where the rectangles overlap
the routing corridor.) -/
theorem c6_loopback_noncrossing (sr er : Rect)
    (hsw : 1 ≤ sr.w) (hew : 1 ≤ er.w)
    (hsep : er.x + er.w ≤ sr.x)
    (hloop : forwardCond sr er = false) :
    ∀ p : ℚ × ℚ, onPolyline (connection_path_points sr er) p →
      ¬ rectInterior sr p ∧ ¬ rectInterior er p := by
  intro p hp
  have sw1 : (1 : ℚ) ≤ (sr.w : ℚ) := by exact_mod_cast hsw
  have ew1 : (1 : ℚ) ≤ (er.w : ℚ) := by exact_mod_cast hew
  have sep : (er.x : ℚ) + (er.w : ℚ) ≤ (sr.x : ℚ) := by exact_mod_cast hsep
  have hmin1 : min (sr.y : ℚ) (er.y : ℚ) ≤ (sr.y : ℚ) := min_le_left _ _
  have hmin2 : min (sr.y : ℚ) (er.y : ℚ) ≤ (er.y : ℚ) := min_le_right _ _
  simp only [connection_path_points, hloop, Bool.false_eq_true, if_false,
    startPos, endPos, Rect.right] at hp
  simp only [onPolyline] at hp
  constructor
  · intro hin
    obtain ⟨hi1, hi2, hi3, hi4⟩ := hin
    simp only [Rect.right, Rect.bottom] at hi2 hi4
    push_cast at hi1 hi2 hi3 hi4
    rcases hp with h | h | h | h | h | h | h
    · have hx := onSeg_bounds_x h (by simp only [toQp]; push_cast; linarith)
      simp only [toQp] at hx
      push_cast at hx
      linarith [hx.1]
    · have hx := onSeg_const_x h (by simp [toQp])
      simp only [toQp] at hx
      push_cast at hx
      linarith
    · have hy := onSeg_const_y h (by simp [toQp])
      simp only [toQp] at hy
      push_cast at hy
      linarith
    · have hx := onSeg_const_x h (by simp [toQp])
      simp only [toQp] at hx
      push_cast at hx
      linarith
    · have hx := onSeg_bounds_x h (by simp only [toQp]; push_cast; linarith)
      simp only [toQp] at hx
      push_cast at hx
      linarith [hx.2]
    · have hx := onSeg_bounds_x h (by simp only [toQp]; push_cast; linarith)
      simp only [toQp] at hx
      push_cast at hx
      linarith [hx.2]
    · exact h
  · intro hin
    obtain ⟨hi1, hi2, hi3, hi4⟩ := hin
    simp only [Rect.right, Rect.bottom] at hi2 hi4
    push_cast at hi1 hi2 hi3 hi4
    rcases hp with h | h | h | h | h | h | h
    · have hx := onSeg_bounds_x h (by simp only [toQp]; push_cast; linarith)
      simp only [toQp] at hx
      push_cast at hx
      linarith [hx.1]
    · have hx := onSeg_const_x h (by simp [toQp])
      simp only [toQp] at hx
      push_cast at hx
      linarith
    · have hy := onSeg_const_y h (by simp [toQp])
      simp only [toQp] at hy
      push_cast at hy
      linarith
    · have hx := onSeg_const_x h (by simp [toQp])
      simp only [toQp] at hx
      push_cast at hx
      linarith
    · have hx := onSeg_bounds_x h (by simp only [toQp]; push_cast; linarith)
      simp only [toQp] at hx
      push_cast at hx
      linarith [hx.2]
    · have hx := onSeg_bounds_x h (by simp only [toQp]; push_cast; linarith)
      simp only [toQp] at hx
      push_cast at hx
      linarith [hx.2]
    · exact h

/-- Witness for `c6_loopback_noncrossing`: start rect (200,0,100,50),
end rect (0,0,100,50), point (323, 25) on the loopback polyline. -/
theorem c6_loopback_noncrossing_witness :
    ¬ rectInterior ⟨200, 0, 100, 50⟩ ((323 : ℚ), (25 : ℚ)) ∧
    ¬ rectInterior ⟨0, 0, 100, 50⟩ ((323 : ℚ), (25 : ℚ)) := by
  have hl : connection_path_points ⟨200, 0, 100, 50⟩ ⟨0, 0, 100, 50⟩ =
      [(299, 25), (323, 25), (323, -60), (-60, -60), (-60, 25), (-24, 25), (0, 25)] := by
    decide
  have hp : onPolyline (connection_path_points ⟨200, 0, 100, 50⟩ ⟨0, 0, 100, 50⟩)
      ((323 : ℚ), (25 : ℚ)) := by
    rw [hl]
    exact Or.inl ⟨1, by norm_num, by norm_num, by norm_num [lerp, toQp, Prod.ext_iff]⟩
  exact c6_loopback_noncrossing ⟨200, 0, 100, 50⟩ ⟨0, 0, 100, 50⟩ (by decide) (by decide)
    (by decide) (by decide) ((323 : ℚ), (25 : ℚ)) hp

/-- The committed connection always starts at the gesture's source unit. -/
theorem mkConn_start (a b : ImgU) (l : List Conn) : (mkConn a b l).start = a.id := by
  unfold mkConn
  split <;> rfl

/-- The committed connection always ends at the clicked target unit. -/
theorem mkConn_endU (a b : ImgU) (l : List Conn) : (mkConn a b l).endU = b.id := by
  unfold mkConn
  split <;> rfl

/-- A press in Connecting mode that hits no unit other than the source
cancels the gesture: the mode ends and the connection list is unchanged. -/
theorem mousePressEvent_cancel (s : FlowState) (stIm : ImgU) (pos : ℤ × ℤ)
    (hst : s.connection_start = some stIm)
    (hmiss : ∀ im ∈ s.images, rectContains im.rect pos = true → im.id = stIm.id) :
    (mousePressEvent s pos).connection_start = none ∧
    (mousePressEvent s pos).connections = s.connections := by
  have hfind : s.images.find? (fun im => rectContains im.rect pos && im.id != stIm.id)
      = none := by
    apply List.find?_eq_none.mpr
    intro im him
    simp only [Bool.and_eq_true, bne_iff_ne, ne_eq, not_and, not_not]
    exact fun h1 => hmiss im him h1
  simp only [mousePressEvent, hst, hfind]
  exact ⟨by trivial, by trivial⟩

/-- Any connection present after a press was already present or is a
fresh non-self-loop. -/
theorem mousePressEvent_mem (s : FlowState) (pos : ℤ × ℤ) (c : Conn)
    (hc : c ∈ (mousePressEvent s pos).connections) :
    c ∈ s.connections ∨ c.start ≠ c.endU := by
  unfold mousePressEvent at hc
  cases hcs : s.connection_start with
  | none => simp only [hcs] at hc; exact Or.inl hc
  | some stIm =>
      simp only [hcs] at hc
      cases hf : s.images.find? (fun im => rectContains im.rect pos && im.id != stIm.id) with
      | none => simp only [hf] at hc; exact Or.inl hc
      | some target =>
          simp only [hf, List.mem_append, List.mem_singleton] at hc
          rcases hc with h | h
          · exact Or.inl h
          · right
            subst h
            rw [mkConn_start, mkConn_endU]
            have hpred := List.find?_some hf
            simp only [Bool.and_eq_true, bne_iff_ne, ne_eq] at hpred
            exact fun he => hpred.2 he.symm

/-- Every event handler preserves the absence of self-loops. -/
theorem step_preserves_no_self_loop (s : FlowState) (e : Ev)
    (hs : ∀ c ∈ s.connections, c.start ≠ c.endU) :
    ∀ c ∈ (step s e).connections, c.start ≠ c.endU := by
  cases e with
  | drop im => exact hs
  | connectLineEv u =>
      intro c hc
      simp only [step, connect_line] at hc
      cases hf : s.images.find? (fun im => im.id == u) <;>
        simp only [hf] at hc <;> exact hs c hc
  | press pos =>
      intro c hc
      rcases mousePressEvent_mem s pos c hc with h | h
      · exact hs c h
      · exact h
  | deleteImageEv u => exact hs
  | removeConnEv c0 =>
      intro c hc
      exact hs c (List.mem_of_mem_erase hc)

/-- C7: in Connecting mode a press on the source unit itself or on empty
space cancels the gesture without adding a connection; a connection is
only ever appended with its end distinct from its start; and no state
reachable from the initial canvas by any event sequence contains a
self-loop connection. -/
theorem c7_no_self_loops :
    (∀ (s : FlowState) (stIm : ImgU) (pos : ℤ × ℤ),
      s.connection_start = some stIm →
      (∀ im ∈ s.images, rectContains im.rect pos = true → im.id = stIm.id) →
      (mousePressEvent s pos).connection_start = none ∧
      (mousePressEvent s pos).connections = s.connections) ∧
    (∀ (s : FlowState) (pos : ℤ × ℤ) (c : Conn),
      c ∈ (mousePressEvent s pos).connections → c ∈ s.connections ∨ c.start ≠ c.endU) ∧
    (∀ evs : List Ev, NoSelfLoop (run evs)) := by
  refine ⟨mousePressEvent_cancel, mousePressEvent_mem, ?_⟩
  have hrun : ∀ (evs : List Ev) (s : FlowState),
      (∀ c ∈ s.connections, c.start ≠ c.endU) →
      ∀ c ∈ (evs.foldl step s).connections, c.start ≠ c.endU := by
    intro evs
    induction evs with
    | nil => exact fun s hs => hs
    | cons e rest ih =>
        exact fun s hs => ih (step s e) (step_preserves_no_self_loop s e hs)
  intro evs
  exact hrun evs initState (fun c hc => absurd hc (List.not_mem_nil c))

/-- Witness for `c7_no_self_loops` (first part): Connecting from unit 0,
a press at (10,10) inside unit 0 itself cancels without adding a
connection. -/
theorem c7_no_self_loops_witness :
    (mousePressEvent ⟨[⟨0, ⟨0, 0, 100, 50⟩, "A"⟩], some ⟨0, ⟨0, 0, 100, 50⟩, "A"⟩, []⟩
        (10, 10)).connection_start = none ∧
    (mousePressEvent ⟨[⟨0, ⟨0, 0, 100, 50⟩, "A"⟩], some ⟨0, ⟨0, 0, 100, 50⟩, "A"⟩, []⟩
        (10, 10)).connections = [] :=
  c7_no_self_loops.1 ⟨[⟨0, ⟨0, 0, 100, 50⟩, "A"⟩], some ⟨0, ⟨0, 0, 100, 50⟩, "A"⟩, []⟩
    ⟨0, ⟨0, 0, 100, 50⟩, "A"⟩ (10, 10) rfl (by decide)

/-- C8: when a connect gesture commits (Connecting from `stIm`, press
hitting `target`), the committed connection is appended to the list; if
the source unit's display label contains "if" (case-insensitive) it is
an action edge with `total_ports = 3`, its port is the number of
connections already starting at that source, and its label cycles
through "if(u1 > 0)" (port 0), "elseif(u2 > 0)" (port 1) and "else"
(port ≥ 2); from any other source it is a single unlabeled data edge
with port 0 and `total_ports = 1`. -/
theorem c8_port_labeling_policy (s : FlowState) (stIm target : ImgU) (pos : ℤ × ℤ)
    (hst : s.connection_start = some stIm)
    (hfind : s.images.find? (fun im => rectContains im.rect pos && im.id != stIm.id)
      = some target) :
    (mousePressEvent s pos).connections
      = s.connections ++ [mkConn stIm target s.connections] ∧
    (hasIfLabel stIm.label = true →
      (mkConn stIm target s.connections).ctype = .action ∧
      (mkConn stIm target s.connections).total_ports = 3 ∧
      (mkConn stIm target s.connections).port
        = (s.connections.filter (fun c => c.start == stIm.id)).length ∧
      ((mkConn stIm target s.connections).port = 0 →
        (mkConn stIm target s.connections).label = "if(u1 > 0)") ∧
      ((mkConn stIm target s.connections).port = 1 →
        (mkConn stIm target s.connections).label = "elseif(u2 > 0)") ∧
      (2 ≤ (mkConn stIm target s.connections).port →
        (mkConn stIm target s.connections).label = "else")) ∧
    (hasIfLabel stIm.label = false →
      (mkConn stIm target s.connections).ctype = .data ∧
      (mkConn stIm target s.connections).label = "" ∧
      (mkConn stIm target s.connections).port = 0 ∧
      (mkConn stIm target s.connections).total_ports = 1) := by
  refine ⟨by simp only [mousePressEvent, hst, hfind], ?_, ?_⟩
  · intro hif
    have hport : (mkConn stIm target s.connections).port
        = (s.connections.filter (fun c => c.start == stIm.id)).length := by
      simp [mkConn, hif]
    refine ⟨by simp [mkConn, hif], by simp [mkConn, hif], hport, ?_, ?_, ?_⟩
    · intro h0
      rw [hport] at h0
      simp [mkConn, hif, h0]
    · intro h1
      rw [hport] at h1
      simp [mkConn, hif, h1]
    · intro h2
      rw [hport] at h2
      rcases Nat.exists_eq_add_of_le h2 with ⟨k, hk⟩
      have e0 : ((2 + k) == 0) = false := by
        simp only [beq_eq_false_iff_ne, ne_eq]
        omega
      have e1 : ((2 + k) == 1) = false := by
        simp only [beq_eq_false_iff_ne, ne_eq]
        omega
      simp [mkConn, hif, hk, e0, e1]
  · intro hif
    simp [mkConn, hif]

/-- Witness for `c8_port_labeling_policy`: source unit 0 labeled "If",
target unit 1, empty connection list, press at (210,10). -/
theorem c8_port_labeling_policy_witness :
    (mkConn ⟨0, ⟨0, 0, 100, 50⟩, "If"⟩ ⟨1, ⟨200, 0, 100, 50⟩, "B"⟩ []).ctype = .action ∧
    (mkConn ⟨0, ⟨0, 0, 100, 50⟩, "If"⟩ ⟨1, ⟨200, 0, 100, 50⟩, "B"⟩ []).total_ports = 3 ∧
    (mkConn ⟨0, ⟨0, 0, 100, 50⟩, "If"⟩ ⟨1, ⟨200, 0, 100, 50⟩, "B"⟩ []).port
      = (([] : List Conn).filter (fun c => c.start == (⟨0, ⟨0, 0, 100, 50⟩, "If"⟩ : ImgU).id)).length ∧
    ((mkConn ⟨0, ⟨0, 0, 100, 50⟩, "If"⟩ ⟨1, ⟨200, 0, 100, 50⟩, "B"⟩ []).port = 0 →
      (mkConn ⟨0, ⟨0, 0, 100, 50⟩, "If"⟩ ⟨1, ⟨200, 0, 100, 50⟩, "B"⟩ []).label = "if(u1 > 0)") ∧
    ((mkConn ⟨0, ⟨0, 0, 100, 50⟩, "If"⟩ ⟨1, ⟨200, 0, 100, 50⟩, "B"⟩ []).port = 1 →
      (mkConn ⟨0, ⟨0, 0, 100, 50⟩, "If"⟩ ⟨1, ⟨200, 0, 100, 50⟩, "B"⟩ []).label = "elseif(u2 > 0)") ∧
    (2 ≤ (mkConn ⟨0, ⟨0, 0, 100, 50⟩, "If"⟩ ⟨1, ⟨200, 0, 100, 50⟩, "B"⟩ []).port →
      (mkConn ⟨0, ⟨0, 0, 100, 50⟩, "If"⟩ ⟨1, ⟨200, 0, 100, 50⟩, "B"⟩ []).label = "else") :=
  (c8_port_labeling_policy
    ⟨[⟨0, ⟨0, 0, 100, 50⟩, "If"⟩, ⟨1, ⟨200, 0, 100, 50⟩, "B"⟩],
      some ⟨0, ⟨0, 0, 100, 50⟩, "If"⟩, []⟩
    ⟨0, ⟨0, 0, 100, 50⟩, "If"⟩ ⟨1, ⟨200, 0, 100, 50⟩, "B"⟩ (210, 10)
    rfl (by decide)).2.1 (by decide)

/-- A nonzero displacement has positive squared length. -/
theorem sum_sq_pos_of_ne {dx dy : ℚ} (h : ¬(dx = 0 ∧ dy = 0)) :
    0 < dx * dx + dy * dy := by
  rcases not_and_or.mp h with h1 | h1
  · have := mul_self_pos.mpr h1
    nlinarith [mul_self_nonneg dy]
  · have := mul_self_pos.mpr h1
    nlinarith [mul_self_nonneg dx]

/-- The clamped projection parameter lies in `[0, 1]`. -/
theorem projParam_mem (pt p1 p2 : ℚ × ℚ) :
    0 ≤ projParam pt p1 p2 ∧ projParam pt p1 p2 ≤ 1 :=
  ⟨le_max_left 0 _, max_le zero_le_one (min_le_left 1 _)⟩

/-- Squared distance to a segment point, expanded as a quadratic in the
parameter. -/
theorem distSq_lerp_expand (pt p1 p2 : ℚ × ℚ) (u : ℚ) :
    distSq pt (lerp p1 p2 u) =
      ((pt.1 - p1.1) ^ 2 + (pt.2 - p1.2) ^ 2)
      - 2 * u * ((pt.1 - p1.1) * (p2.1 - p1.1) + (pt.2 - p1.2) * (p2.2 - p1.2))
      + u * u * ((p2.1 - p1.1) * (p2.1 - p1.1) + (p2.2 - p1.2) * (p2.2 - p1.2)) := by
  simp only [distSq, lerp]
  ring

/-- The clamped projection point is a closest point of the segment: its
squared distance to the query point is minimal among all segment
parameters in `[0, 1]`. -/
theorem projParam_minimizes (pt p1 p2 : ℚ × ℚ)
    (h : ¬(p2.1 - p1.1 = 0 ∧ p2.2 - p1.2 = 0)) (s : ℚ) (hs0 : 0 ≤ s) (hs1 : s ≤ 1) :
    distSq pt (lerp p1 p2 (projParam pt p1 p2)) ≤ distSq pt (lerp p1 p2 s) := by
  have hD := sum_sq_pos_of_ne h
  rw [distSq_lerp_expand, distSq_lerp_expand]
  set A := (pt.1 - p1.1) * (p2.1 - p1.1) + (pt.2 - p1.2) * (p2.2 - p1.2) with hAdef
  set D := (p2.1 - p1.1) * (p2.1 - p1.1) + (p2.2 - p1.2) * (p2.2 - p1.2) with hDdef
  have hproj : projParam pt p1 p2 = max 0 (min 1 (A / D)) := rfl
  rw [hproj]
  rcases le_or_lt A 0 with hA0 | hA0
  · have hAD : A / D ≤ 0 := div_nonpos_of_nonpos_of_nonneg hA0 hD.le
    rw [min_eq_right (hAD.trans zero_le_one), max_eq_left hAD]
    nlinarith [mul_nonneg (mul_nonneg hs0 hs0) hD.le,
      mul_nonpos_of_nonneg_of_nonpos hs0 hA0]
  · rcases le_or_lt D A with hDA | hDA
    · have h1 : 1 ≤ A / D := (one_le_div hD).mpr hDA
      rw [min_eq_left h1, max_eq_right zero_le_one]
      nlinarith [mul_nonneg (sub_nonneg.mpr hs1) (sub_nonneg.mpr hDA),
        mul_nonneg (mul_nonneg (sub_nonneg.mpr hs1) (sub_nonneg.mpr hs1)) hD.le]
    · have h0 : 0 ≤ A / D := div_nonneg hA0.le hD.le
      have h1 : A / D ≤ 1 := (div_le_one hD).mpr hDA.le
      rw [min_eq_right h1, max_eq_right h0]
      have hrD : A / D * D = A := div_mul_cancel₀ A (ne_of_gt hD)
      have hzero : (A / D - s) * (A / D * D - A) = 0 := by
        rw [hrD]
        ring
      nlinarith [mul_nonneg hD.le (sq_nonneg (A / D - s)), hzero]

/-- `point_near_line` answers whether some point of the segment lies
within the threshold: the forward direction exhibits the clamped
projection point, the backward direction uses its minimality. -/
theorem point_near_line_iff_near_point (pt p1 p2 : ℚ × ℚ) (th : ℚ) (hth : 0 ≤ th) :
    point_near_line pt p1 p2 th = true ↔
      ∃ s : ℚ, 0 ≤ s ∧ s ≤ 1 ∧ distSq pt (lerp p1 p2 s) ≤ th ^ 2 := by
  by_cases hdeg : p2.1 - p1.1 = 0 ∧ p2.2 - p1.2 = 0
  · rw [point_near_line, if_pos hdeg, decide_eq_true_eq]
    constructor
    · rintro ⟨-, hd⟩
      refine ⟨0, le_refl 0, zero_le_one, ?_⟩
      have h0 : lerp p1 p2 0 = (p1.1, p1.2) := by simp [lerp]
      rw [h0]
      exact hd
    · rintro ⟨s, hs0, hs1, hd⟩
      refine ⟨hth, ?_⟩
      have h0 : lerp p1 p2 s = (p1.1, p1.2) := by simp [lerp, hdeg.1, hdeg.2]
      rw [h0] at hd
      exact hd
  · rw [point_near_line, if_neg hdeg, decide_eq_true_eq]
    constructor
    · rintro ⟨-, hd⟩
      exact ⟨projParam pt p1 p2, (projParam_mem pt p1 p2).1, (projParam_mem pt p1 p2).2, hd⟩
    · rintro ⟨s, hs0, hs1, hd⟩
      exact ⟨hth, le_trans (projParam_minimizes pt p1 p2 hdeg s hs0 hs1) hd⟩

/-- A point exactly on the segment passes `point_near_line` at
threshold 0. -/
theorem point_near_line_of_onSeg (pt a b : ℚ × ℚ) (h : onSeg a b pt) :
    point_near_line pt a b 0 = true := by
  obtain ⟨t, ht0, ht1, hpt⟩ := h
  by_cases hdeg : b.1 - a.1 = 0 ∧ b.2 - a.2 = 0
  · rw [point_near_line, if_pos hdeg, decide_eq_true_eq]
    refine ⟨le_refl 0, ?_⟩
    have h0 : lerp a b t = (a.1, a.2) := by simp [lerp, hdeg.1, hdeg.2]
    rw [hpt, h0]
    simp [distSq]
  · rw [point_near_line, if_neg hdeg, decide_eq_true_eq]
    refine ⟨le_refl 0, ?_⟩
    have hmin := projParam_minimizes pt a b hdeg t ht0 ht1
    have hzero : distSq pt (lerp a b t) = 0 := by
      rw [← hpt]
      simp [distSq]
    rw [hzero] at hmin
    simpa using hmin

/-- The fallback loop accepts a polyline exactly when one of its
consecutive segment pairs passes `point_near_line`. -/
theorem near_polyline_iff (pt : ℚ × ℚ) (th : ℚ) (l : List (ℤ × ℤ)) :
    near_polyline pt th l = true ↔
      ∃ ab ∈ adjPairs l, point_near_line pt (toQp ab.1) (toQp ab.2) th = true := by
  induction l with
  | nil => simp [near_polyline, adjPairs]
  | cons a rest ih =>
      cases rest with
      | nil => simp [near_polyline, adjPairs]
      | cons b rest2 =>
          simp only [near_polyline, adjPairs, Bool.or_eq_true, List.mem_cons, ih]
          constructor
          · rintro (h | ⟨ab, hab, hpn⟩)
            · exact ⟨(a, b), Or.inl rfl, h⟩
            · exact ⟨ab, Or.inr hab, hpn⟩
          · rintro ⟨ab, hab | hab, hpn⟩
            · subst hab
              exact Or.inl hpn
            · exact Or.inr ⟨ab, hab, hpn⟩

/-- C9: `point_near_line` returns true exactly when some point of the
segment (projection parameter clamped to [0,1]) lies within the
threshold; consequently the segment fallback of `connection_at` finds a
connection when the query point lies exactly on one of its path
segments (threshold 0), and returns none when the query point is
farther than the threshold from every segment of every path. -/
theorem c9_point_near_line_hit_test :
    (∀ (pt p1 p2 : ℚ × ℚ) (th : ℚ), 0 ≤ th →
      (point_near_line pt p1 p2 th = true ↔
        ∃ s : ℚ, 0 ≤ s ∧ s ≤ 1 ∧ distSq pt (lerp p1 p2 s) ≤ th ^ 2)) ∧
    (∀ (pt : ℚ × ℚ) (conns : List (Rect × Rect)) (rr : Rect × Rect) (a b : ℤ × ℤ),
      rr ∈ conns → (a, b) ∈ adjPairs (connection_path_points rr.1 rr.2) →
      onSeg (toQp a) (toQp b) pt →
      (connection_at_segments pt 0 conns).isSome = true) ∧
    (∀ (pt : ℚ × ℚ) (th : ℚ) (conns : List (Rect × Rect)), 0 ≤ th →
      (∀ rr ∈ conns, ∀ ab ∈ adjPairs (connection_path_points rr.1 rr.2),
        ∀ s : ℚ, 0 ≤ s → s ≤ 1 → th ^ 2 < distSq pt (lerp (toQp ab.1) (toQp ab.2) s)) →
      connection_at_segments pt th conns = none) := by
  refine ⟨point_near_line_iff_near_point, ?_, ?_⟩
  · intro pt conns rr a b hrr hab hseg
    have hnp : near_polyline pt 0 (connection_path_points rr.1 rr.2) = true :=
      (near_polyline_iff pt 0 _).mpr
        ⟨(a, b), hab, point_near_line_of_onSeg pt (toQp a) (toQp b) hseg⟩
    unfold connection_at_segments
    rw [List.find?_isSome]
    exact ⟨rr, hrr, hnp⟩
  · intro pt th conns hth hfar
    unfold connection_at_segments
    apply List.find?_eq_none.mpr
    intro rr hrr
    intro hnp
    obtain ⟨ab, hab, hpnl⟩ := (near_polyline_iff pt th _).mp hnp
    obtain ⟨s, hs0, hs1, hd⟩ :=
      (point_near_line_iff_near_point pt (toQp ab.1) (toQp ab.2) th hth).mp hpnl
    exact absurd hd (not_le.mpr (hfar rr hrr ab hab s hs0 hs1))

/-- Witness for `c9_point_near_line_hit_test` (second part): the point
(99, 25) lies on the first path segment of the connection routed between
(0,0,100,50) and (300,0,100,50), and the fallback finds it at
threshold 0. -/
theorem c9_point_near_line_hit_test_witness :
    (connection_at_segments ((99 : ℚ), (25 : ℚ)) 0
      [(⟨0, 0, 100, 50⟩, ⟨300, 0, 100, 50⟩)]).isSome = true :=
  c9_point_near_line_hit_test.2.1 ((99 : ℚ), (25 : ℚ))
    [(⟨0, 0, 100, 50⟩, ⟨300, 0, 100, 50⟩)] (⟨0, 0, 100, 50⟩, ⟨300, 0, 100, 50⟩)
    (99, 25) (123, 25) (by decide) (by decide)
    ⟨0, le_refl 0, zero_le_one, by norm_num [lerp, toQp, Prod.ext_iff]⟩

/-- C10: `point_near_line` is total, its `dx == dy == 0` guard returns
the direct point-to-endpoint comparison exactly on degenerate segments,
and away from the guard the projection's divisor `dx*dx + dy*dy` is
nonzero, so the division is never by zero. -/
theorem c10_point_near_line_degenerate_guard :
    ∀ (pt p1 p2 : ℚ × ℚ) (th : ℚ),
      (p2.1 - p1.1 = 0 ∧ p2.2 - p1.2 = 0 →
        point_near_line pt p1 p2 th = decide (0 ≤ th ∧ distSq pt p1 ≤ th ^ 2)) ∧
      (¬(p2.1 - p1.1 = 0 ∧ p2.2 - p1.2 = 0) →
        (p2.1 - p1.1) * (p2.1 - p1.1) + (p2.2 - p1.2) * (p2.2 - p1.2) ≠ 0) := by
  intro pt p1 p2 th
  exact ⟨fun h => by rw [point_near_line, if_pos h],
    fun h => ne_of_gt (sum_sq_pos_of_ne h)⟩

/-- Witness for `c10_point_near_line_degenerate_guard`: the degenerate
case at p1 = p2 = (1,1), and the nonzero divisor for p1 = (1,1),
p2 = (2,3). -/
theorem c10_point_near_line_degenerate_guard_witness :
    point_near_line ((3 : ℚ), (4 : ℚ)) (1, 1) (1, 1) 5
      = decide ((0 : ℚ) ≤ 5 ∧ distSq ((3 : ℚ), (4 : ℚ)) (1, 1) ≤ 5 ^ 2) ∧
    ((2 : ℚ) - 1) * ((2 : ℚ) - 1) + ((3 : ℚ) - 1) * ((3 : ℚ) - 1) ≠ 0 :=
  ⟨(c10_point_near_line_degenerate_guard ((3 : ℚ), (4 : ℚ)) (1, 1) (1, 1) 5).1
      (by norm_num),
   (c10_point_near_line_degenerate_guard ((3 : ℚ), (4 : ℚ)) (1, 1) (2, 3) 5).2
      (by norm_num)⟩
